import Mathlib

/-!
# FridgePal — verification of the detection-to-inventory pipeline

Shallow embedding of the JavaScript sources of the FridgePal repository:

* `src/services/detectionService.js` — `detectFoodItems`, `mapCategory`,
  `processDetectionResults`
* `src/pages/MainTabs/Scanner.jsx` — `handleAddToFridge`
* `src/pages/MainTabs/Home.jsx` — `handleUpdateAmount`
* `src/services/storageService.js` — `getPathFromUrl`

Modelling conventions:

* JavaScript strings are Lean `String`s; where character-level reasoning is
  needed (template literals, `indexOf`, `substring`) we work on `List Char`
  (a JS string is its sequence of UTF-16 units; all literals here are ASCII).
* `null`/`undefined`/absent fields are `Option.none`; the JS truthiness test
  on a string (`x || y`, `x ? a : b`, `if (!x)`) is falsy exactly on
  `null`/`undefined`/`""`, which we model explicitly.
* Numbers that the code only adds, compares and clamps are modelled as `ℚ`
  (confidences, amounts) or `ℕ` (timestamps, day counts, HTTP statuses).
* `Date.now()` is an uninterpreted clock: a function `ℕ → ℕ` giving the
  millisecond reading observed at the i-th loop iteration, since the code
  reads the clock once per mapped item.
-/

namespace FridgePal

/-! ## Decimal rendering of numbers (JS template literal `${n}`)

`` `detected-${Date.now()}-${index}` `` interpolates nonnegative integers in
decimal.  We model the decimal rendering of a `Nat` directly, fuel-structured
so that it reduces by `decide`/`rfl`. -/

/-- The decimal digit character for `d` (callers only pass `d < 10`;
the catch-all arm mirrors exhaustiveness, not reachable behaviour). -/
def digitChar (d : Nat) : Char :=
  match d with
  | 0 => '0' | 1 => '1' | 2 => '2' | 3 => '3' | 4 => '4'
  | 5 => '5' | 6 => '6' | 7 => '7' | 8 => '8' | _ => '9'

/-- Decimal digits of `n`, most significant first; `fuel` bounds recursion. -/
def natCharsAux : Nat → Nat → List Char
  | 0, _ => []
  | fuel + 1, n =>
    if n < 10 then [digitChar n]
    else natCharsAux fuel (n / 10) ++ [digitChar (n % 10)]

/-- Decimal rendering of a natural number, as JS renders a nonnegative
integer in a template literal (`String(0) = "0"`). -/
def natChars (n : Nat) : List Char := natCharsAux (n + 1) n

/-- Numeric value of a digit character. -/
def charVal (c : Char) : Nat := c.toNat - '0'.toNat

/-- Decode a digit string back to the number it denotes. -/
def decodeChars (l : List Char) : Nat :=
  l.foldl (fun acc c => acc * 10 + charVal c) 0

theorem digitChar_ne_dash (d : Nat) : digitChar d ≠ '-' := by
  unfold digitChar
  split <;> decide

theorem natCharsAux_ne_dash (fuel n : Nat) :
    ∀ c ∈ natCharsAux fuel n, c ≠ '-' := by
  induction fuel generalizing n with
  | zero => intro c hc; simp [natCharsAux] at hc
  | succ fuel ih =>
    intro c hc
    rw [natCharsAux] at hc
    split at hc
    · simp at hc
      subst hc
      exact digitChar_ne_dash n
    · simp at hc
      rcases hc with hc | hc
      · exact ih _ c hc
      · subst hc
        exact digitChar_ne_dash (n % 10)

theorem natChars_ne_dash (n : Nat) : ∀ c ∈ natChars n, c ≠ '-' :=
  natCharsAux_ne_dash (n + 1) n

theorem charVal_digitChar (d : Nat) (h : d < 10) : charVal (digitChar d) = d := by
  interval_cases d <;> decide

theorem decodeChars_append_singleton (l : List Char) (c : Char) :
    decodeChars (l ++ [c]) = decodeChars l * 10 + charVal c := by
  simp [decodeChars, List.foldl_append]

theorem decodeChars_natCharsAux (fuel n : Nat) (h : n ≤ fuel) :
    decodeChars (natCharsAux fuel n) = n := by
  induction fuel generalizing n with
  | zero =>
    interval_cases n
    simp [natCharsAux, decodeChars]
  | succ fuel ih =>
    rw [natCharsAux]
    split
    · simp [decodeChars]
      exact charVal_digitChar n (by omega)
    · rename_i hn
      rw [decodeChars_append_singleton, ih (n / 10) (by omega),
        charVal_digitChar (n % 10) (Nat.mod_lt _ (by omega))]
      omega

theorem decodeChars_natChars (n : Nat) : decodeChars (natChars n) = n :=
  decodeChars_natCharsAux (n + 1) n (Nat.le_succ n)

theorem natChars_injective : Function.Injective natChars := by
  intro a b h
  have := decodeChars_natChars a
  rw [h, decodeChars_natChars] at this
  exact this.symm

/-! ## `mapCategory` (detectionService.js, lines 121–128)

```js
const mapCategory = (backendCategory) => {
  const categoryMap = {
    'fruit': 'fruits',
    'vegetable': 'vegetables',
    'packaged': 'packaged',
  };
  return categoryMap[backendCategory] || 'other';
};
```

The object literal is a fixed finite map; `||` falls through exactly on a
missing key (all three table values are non-empty, hence truthy). -/

/-- The fixed label→category table of `mapCategory`. -/
def categoryMap : List (String × String) :=
  [("fruit", "fruits"), ("vegetable", "vegetables"), ("packaged", "packaged")]

/-- JS `x || fallback` on an optional string: falsy exactly on
`null`/`undefined`/`""`. -/
def jsOrString (x : Option String) (fallback : String) : String :=
  match x with
  | some s => if s.isEmpty then fallback else s
  | none => fallback

/-- `mapCategory` from detectionService.js. -/
def mapCategory (backendCategory : String) : String :=
  jsOrString (categoryMap.lookup backendCategory) "other"

/-! ## `processDetectionResults` (detectionService.js, lines 105–116)

```js
export const processDetectionResults = (detectionResponse) => {
  const { detected_items } = detectionResponse;
  return detected_items.map((item, index) => ({
    id: `detected-${Date.now()}-${index}`,
    name: item.label,
    category: mapCategory(item.category),
    confidence: item.confidence,
    ocrText: item.extra || null,
    detectedAt: new Date().toISOString(),
  }));
};
```
-/

/-- One element of the backend's `detected_items` array.  `extra` may be
absent/`null` (`none`) or any string, the empty string included. -/
structure DetectedItem where
  label : String
  category : String
  confidence : ℚ
  extra : Option String
  deriving DecidableEq, Repr

/-- The parsed detection response: the code only destructures
`detected_items`. -/
structure DetectionResponse where
  detected_items : List DetectedItem
  deriving DecidableEq, Repr

/-- A formatted inventory record as assembled by `processDetectionResults`.
`id` is kept at character level (template-literal output); `detectedAt`
is the clock reading at assembly time (`new Date().toISOString()` renders
that instant; the rendering itself is injective in the instant). -/
structure InventoryRecord where
  id : List Char
  name : String
  category : String
  confidence : ℚ
  ocrText : Option String
  detectedAt : Nat
  deriving DecidableEq, Repr

/-- JS `x || null` on an optional string: `null` exactly on
`null`/`undefined`/`""`. -/
def jsOrNull (x : Option String) : Option String :=
  match x with
  | some s => if s.isEmpty then none else some s
  | none => none

/-- The template literal `` `detected-${now}-${index}` ``. -/
def mkDetectedId (now index : Nat) : List Char :=
  ("detected-".toList ++ natChars now) ++ '-' :: natChars index

/-- `processDetectionResults`.  `clock i` is the `Date.now()` reading during
the i-th iteration of the `map` callback (the code queries the clock once
per item, so readings may differ across items of one call). -/
def processDetectionResults (detectionResponse : DetectionResponse)
    (clock : Nat → Nat) : List InventoryRecord :=
  detectionResponse.detected_items.enum.map (fun p =>
    { id := mkDetectedId (clock p.1) p.1
      name := p.2.label
      category := mapCategory p.2.category
      confidence := p.2.confidence
      ocrText := jsOrNull p.2.extra
      detectedAt := clock p.1 })

/-! ## `detectFoodItems` (detectionService.js, lines 13–44)

```js
export const detectFoodItems = async (base64Image) => {
  try {
    ... fetch with AbortController timeout ...
    if (!response.ok) {
      const errorData = await response.json().catch(() => ({}));
      throw new Error(errorData.detail || `Detection failed: ${response.status}`);
    }
    const data = await response.json();
    return data;
  } catch (error) {
    if (error.name === 'AbortError') {
      throw new Error('Detection request timed out. Check if backend is running.');
    }
    throw error;
  }
};
```

We model the outcome of the `fetch` as data: either the abort timer fired
(the `fetch` rejects with `AbortError`), or a response arrived with an `ok`
flag, a status code, the `detail` field of its parsed error body (`none`
when the body is not JSON — the `.catch(() => ({}))` — or has no `detail`),
and the parsed success body. -/

/-- Outcome of the HTTP fetch inside `detectFoodItems`. -/
inductive FetchOutcome where
  | timeout
  | completed (ok : Bool) (status : Nat) (detail : Option String)
      (data : DetectionResponse)
  deriving DecidableEq

/-- The fixed timeout message. -/
def timeoutMessage : String := "Detection request timed out. Check if backend is running."

/-- The status-based fallback message `` `Detection failed: ${status}` ``. -/
def statusMessage (status : Nat) : String :=
  "Detection failed: " ++ ⟨natChars status⟩

/-- `detectFoodItems`: throwing is modelled as `Except.error` carrying the
`Error` message. -/
def detectFoodItems (outcome : FetchOutcome) : Except String DetectionResponse :=
  match outcome with
  | .timeout => .error timeoutMessage
  | .completed ok status detail data =>
    if ok then .ok data
    else .error (jsOrString detail (statusMessage status))

/-! ## `handleAddToFridge` (Scanner.jsx, lines 105–119)

```js
const expiryDate = new Date();
expiryDate.setDate(expiryDate.getDate() + 7); // Default 7 days
await dispatch(addFridgeItem({
  name: item.name,
  category: item.category,
  expiryDate: expiryDate.toISOString().split('T')[0],
  amountLeft: 100,
  quantity: 1,
  unit: 'item',
  notes: item.ocrText ? `OCR: ${item.ocrText}` : '',
  imageUrl,
  imagePath,
})).unwrap();
```

Dates are modelled on an abstract day axis: `today` is the day read from
`new Date()` when the handler runs, and `setDate(getDate() + 7)` lands on
day `today + 7`. -/

/-- The payload handed to the `addFridgeItem` thunk (persistence layer). -/
structure FridgeItemPayload where
  name : String
  category : String
  expiryDate : Nat
  amountLeft : ℚ
  quantity : Nat
  unit : String
  notes : String
  deriving DecidableEq, Repr

/-- Payload construction of `handleAddToFridge` for one detected item.
The JS ternary `item.ocrText ? ... : ''` tests string truthiness. -/
def handleAddToFridge (item : InventoryRecord) (today : Nat) : FridgeItemPayload :=
  { name := item.name
    category := item.category
    expiryDate := today + 7
    amountLeft := 100
    quantity := 1
    unit := "item"
    notes :=
      match item.ocrText with
      | some t => if t.isEmpty then "" else "OCR: " ++ t
      | none => "" }

/-! ## `handleUpdateAmount` (Home.jsx, lines 74–84)

```js
const handleUpdateAmount = (id, change) => {
  const item = items.find(i => i.id === id);
  if (item) {
    const newAmount = Math.max(0, Math.min(1, item.amountLeft + change));
    if (newAmount === 0) {
      handleRemoveItem(id);
    } else {
      dispatch(updateAmountLeft({ id, amountLeft: newAmount }));
    }
  }
};
```
-/

/-- The slice of a fridge item that `handleUpdateAmount` reads. -/
structure HomeItem where
  id : String
  amountLeft : ℚ
  deriving DecidableEq, Repr

/-- What the handler does: nothing, ask to remove the item, or dispatch
`updateAmountLeft` with the new amount. -/
inductive HomeAction where
  | noop
  | remove (id : String)
  | update (id : String) (amountLeft : ℚ)
  deriving DecidableEq, Repr

/-- `handleUpdateAmount` over the current item list. -/
def handleUpdateAmount (items : List HomeItem) (id : String) (change : ℚ) :
    HomeAction :=
  match items.find? (fun i => i.id == id) with
  | none => .noop
  | some item =>
    let newAmount := max 0 (min 1 (item.amountLeft + change))
    if newAmount = 0 then .remove id else .update id newAmount

/-! ## `getPathFromUrl` (storageService.js, lines 99–105)

```js
const BUCKET = 'fridge-photos';
export const getPathFromUrl = (url) => {
  if (!url) return null;
  const marker = `${BUCKET}/`;
  const idx = url.indexOf(marker);
  if (idx === -1) return null;
  return url.substring(idx + marker.length);
};
```

`indexOf`/`substring` are character-index operations, so the URL is a
`List Char` here; the argument is `Option`al to cover `null`/`undefined`
(`!url` is also true on the empty string). -/

/-- The bucket marker `` `${BUCKET}/` ``. -/
def bucketMarker : List Char := "fridge-photos/".toList

/-- `String.prototype.indexOf`: index of the first occurrence of `pat`,
`none` for JS's `-1`. -/
def indexOfSubstr (pat : List Char) : List Char → Option Nat
  | [] => if pat = [] then some 0 else none
  | c :: rest =>
    if pat <+: (c :: rest) then some 0
    else (indexOfSubstr pat rest).map (· + 1)

/-- `getPathFromUrl`. -/
def getPathFromUrl (url : Option (List Char)) : Option (List Char) :=
  match url with
  | none => none
  | some u =>
    if u.isEmpty then none
    else
      match indexOfSubstr bucketMarker u with
      | none => none
      | some idx => some (u.drop (idx + bucketMarker.length))

/-! ## Shared lemmas about the pipeline -/

theorem length_processDetectionResults (resp : DetectionResponse) (clock : Nat → Nat) :
    (processDetectionResults resp clock).length = resp.detected_items.length := by
  simp [processDetectionResults]

theorem get_processDetectionResults (resp : DetectionResponse) (clock : Nat → Nat)
    (i : Nat) (h : i < resp.detected_items.length) :
    (processDetectionResults resp clock).get
        ⟨i, by rw [length_processDetectionResults]; exact h⟩ =
      { id := mkDetectedId (clock i) i
        name := (resp.detected_items.get ⟨i, h⟩).label
        category := mapCategory (resp.detected_items.get ⟨i, h⟩).category
        confidence := (resp.detected_items.get ⟨i, h⟩).confidence
        ocrText := jsOrNull (resp.detected_items.get ⟨i, h⟩).extra
        detectedAt := clock i } := by
  simp [processDetectionResults]

theorem mem_processDetectionResults (resp : DetectionResponse) (clock : Nat → Nat)
    (r : InventoryRecord) (hr : r ∈ processDetectionResults resp clock) :
    ∃ i item, (i, item) ∈ resp.detected_items.enum ∧
      r = { id := mkDetectedId (clock i) i
            name := item.label
            category := mapCategory item.category
            confidence := item.confidence
            ocrText := jsOrNull item.extra
            detectedAt := clock i } := by
  simp only [processDetectionResults, List.mem_map] at hr
  obtain ⟨⟨i, item⟩, hmem, heq⟩ := hr
  exact ⟨i, item, hmem, heq.symm⟩

/-- A string that is none of the three table keys has no table entry. -/
theorem lookup_categoryMap_eq_none (c : String) (h1 : c ≠ "fruit")
    (h2 : c ≠ "vegetable") (h3 : c ≠ "packaged") :
    categoryMap.lookup c = none := by
  simp [categoryMap, List.lookup, beq_eq_false_iff_ne.mpr h1,
    beq_eq_false_iff_ne.mpr h2, beq_eq_false_iff_ne.mpr h3]

/-- Every category the pipeline can emit. -/
theorem mapCategory_mem (c : String) :
    mapCategory c ∈ (["fruits", "vegetables", "packaged", "other"] : List String) := by
  by_cases h1 : c = "fruit"
  · subst h1; decide
  by_cases h2 : c = "vegetable"
  · subst h2; decide
  by_cases h3 : c = "packaged"
  · subst h3; decide
  · simp [mapCategory, lookup_categoryMap_eq_none c h1 h2 h3, jsOrString]

/-! ## Claims -/

/-- **C1, counterexample.** The claim says a batch of two detected regions,
one of which yields an invalid record (empty name), results in one valid
`InventoryRecord`.  On the code, `processDetectionResults` is a bare `map`:
both records come back, the empty-named one included, so the output length
is 2, not 1. -/
theorem processDetectionResults_keeps_invalid_records :
    (processDetectionResults
        ⟨[⟨"apple", "fruit", 1, none⟩, ⟨"", "fruit", 1, none⟩]⟩ (fun _ => 0)).length = 2 ∧
    (processDetectionResults
        ⟨[⟨"apple", "fruit", 1, none⟩, ⟨"", "fruit", 1, none⟩]⟩ (fun _ => 0)).map
        InventoryRecord.name = ["apple", ""] := by
  constructor <;> rfl

/-- **C1, amended.** `processDetectionResults` performs no validation and
drops nothing: for every batch of N detected regions it returns exactly N
records — one per region, invalid ones included — and it cannot throw, so
one bad region never affects the other regions of the same image. -/
theorem processDetectionResults_total_one_record_per_item
    (resp : DetectionResponse) (clock : Nat → Nat) :
    (processDetectionResults resp clock).length = resp.detected_items.length := by
  simp [processDetectionResults]

/-- **C2, counterexample.** The claim fixes the category enum as
{fruit, vegetable, packaged, other}; the code maps backend `"fruit"` to
`"fruits"` (and `"vegetable"` to `"vegetables"`), which is outside that
enum. -/
theorem pipeline_category_outside_claimed_enum :
    (processDetectionResults ⟨[⟨"banana", "fruit", 1, none⟩]⟩ (fun _ => 0)).map
        InventoryRecord.category = ["fruits"] ∧
    "fruits" ∉ (["fruit", "vegetable", "packaged", "other"] : List String) := by
  exact ⟨rfl, by decide⟩

/-- **C2, amended.** Category codomain invariant: every record produced by
`processDetectionResults` has its category in the fixed enum
{fruits, vegetables, packaged, other} — never any other value. -/
theorem pipeline_category_codomain (resp : DetectionResponse) (clock : Nat → Nat)
    (r : InventoryRecord) (hr : r ∈ processDetectionResults resp clock) :
    r.category ∈ (["fruits", "vegetables", "packaged", "other"] : List String) := by
  obtain ⟨i, item, -, rfl⟩ := mem_processDetectionResults resp clock r hr
  exact mapCategory_mem item.category

/-- **C2, witness.** -/
theorem pipeline_category_codomain_witness :
    ({ id := mkDetectedId 0 0, name := "banana", category := mapCategory "fruit",
       confidence := 1, ocrText := none, detectedAt := 0 } :
        InventoryRecord).category ∈
      (["fruits", "vegetables", "packaged", "other"] : List String) :=
  pipeline_category_codomain ⟨[⟨"banana", "fruit", 1, none⟩]⟩ (fun _ => 0) _
    (by simp [processDetectionResults, mkDetectedId, jsOrNull])

/-- **C3.** Classifier lookup semantics: `mapCategory` is an exact-match
lookup against the fixed table `categoryMap`; every key of the table is sent
to the table's value, and every other string is sent to `"other"`. -/
theorem mapCategory_lookup_semantics :
    (∀ p ∈ categoryMap, mapCategory p.1 = p.2) ∧
    (∀ c : String, c ∉ categoryMap.map Prod.fst → mapCategory c = "other") := by
  constructor
  · intro p hp
    fin_cases hp <;> decide
  · intro c hc
    simp [categoryMap] at hc
    obtain ⟨h1, h2, h3⟩ := hc
    simp [mapCategory, lookup_categoryMap_eq_none c h1 h2 h3, jsOrString]

/-- **C3, witness.** -/
theorem mapCategory_lookup_semantics_witness :
    mapCategory "fruit" = "fruits" ∧ mapCategory "pizza" = "other" :=
  ⟨mapCategory_lookup_semantics.1 ("fruit", "fruits") (by decide),
   mapCategory_lookup_semantics.2 "pizza" (by decide)⟩

/-- **C4.** Order and field inheritance: `processDetectionResults` returns
exactly one record per detected item, in detection order: the i-th output
record's name is the i-th detected item's label and its confidence is the
i-th detected item's confidence, unchanged. -/
theorem detection_order_and_field_inheritance (resp : DetectionResponse)
    (clock : Nat → Nat) :
    (processDetectionResults resp clock).length = resp.detected_items.length ∧
    ∀ i : Nat, ∀ h : i < resp.detected_items.length,
      ((processDetectionResults resp clock).get
          ⟨i, by rw [length_processDetectionResults]; exact h⟩).name =
        (resp.detected_items.get ⟨i, h⟩).label ∧
      ((processDetectionResults resp clock).get
          ⟨i, by rw [length_processDetectionResults]; exact h⟩).confidence =
        (resp.detected_items.get ⟨i, h⟩).confidence := by
  refine ⟨length_processDetectionResults resp clock, fun i h => ?_⟩
  rw [get_processDetectionResults resp clock i h]
  exact ⟨rfl, rfl⟩

/-- **C4, witness.** -/
theorem detection_order_and_field_inheritance_witness :
    (processDetectionResults ⟨[⟨"apple", "fruit", 1, none⟩]⟩ (fun _ => 0)).length = 1 ∧
    ((processDetectionResults ⟨[⟨"apple", "fruit", 1, none⟩]⟩ (fun _ => 0)).get
        ⟨0, by rw [length_processDetectionResults]; exact Nat.one_pos⟩).name = "apple" ∧
    ((processDetectionResults ⟨[⟨"apple", "fruit", 1, none⟩]⟩ (fun _ => 0)).get
        ⟨0, by rw [length_processDetectionResults]; exact Nat.one_pos⟩).confidence = 1 := by
  obtain ⟨hlen, hfields⟩ :=
    detection_order_and_field_inheritance ⟨[⟨"apple", "fruit", 1, none⟩]⟩ (fun _ => 0)
  exact ⟨hlen, (hfields 0 Nat.one_pos).1, (hfields 0 Nat.one_pos).2⟩

/-- **C8.** OCR text normalization: the assembled record's `ocrText` is
either a non-empty string or `null`, never the empty string; a missing,
`null`, or empty-string `extra` from the backend is normalized to `null`
(the `item.extra || null` in `processDetectionResults`). -/
theorem ocrText_normalization (resp : DetectionResponse) (clock : Nat → Nat) :
    ∀ i : Nat, ∀ h : i < resp.detected_items.length,
      (((resp.detected_items.get ⟨i, h⟩).extra = none ∨
          (resp.detected_items.get ⟨i, h⟩).extra = some "") →
        ((processDetectionResults resp clock).get
            ⟨i, by rw [length_processDetectionResults]; exact h⟩).ocrText = none) ∧
      ∀ s : String,
        ((processDetectionResults resp clock).get
            ⟨i, by rw [length_processDetectionResults]; exact h⟩).ocrText = some s →
          s ≠ "" := by
  intro i h
  rw [get_processDetectionResults resp clock i h]
  constructor
  · rintro (hx | hx)
    · simp only [List.get_eq_getElem] at hx
      simp [jsOrNull, hx]
    · simp only [List.get_eq_getElem] at hx
      simp [jsOrNull, hx]
      decide
  · intro s hs
    cases hx : resp.detected_items[i].extra with
    | none => simp [jsOrNull, hx] at hs
    | some t =>
      simp only [jsOrNull, List.get_eq_getElem, hx] at hs
      split at hs
      · exact absurd hs (by simp)
      · rename_i ht
        obtain rfl : t = s := by simpa using hs
        simpa [String.isEmpty_iff] using ht

/-- **C8, witness.** -/
theorem ocrText_normalization_witness :
    ((processDetectionResults ⟨[⟨"box", "packaged", 1, some ""⟩]⟩ (fun _ => 0)).get
        ⟨0, by rw [length_processDetectionResults]; exact Nat.one_pos⟩).ocrText = none :=
  ((ocrText_normalization ⟨[⟨"box", "packaged", 1, some ""⟩]⟩ (fun _ => 0) 0
      Nat.one_pos).1) (Or.inr rfl)

/-! ## Uniqueness of the generated ids (C5)

`` `detected-${Date.now()}-${index}` `` ends in `-<decimal index>`, and a
decimal numeral contains no dash, so the text after the last dash determines
the index — even when the clock readings differ between iterations. -/

theorem append_dash_left_inj (a : List Char) :
    ∀ c b d : List Char, '-' ∉ a → '-' ∉ c →
      a ++ '-' :: b = c ++ '-' :: d → a = c ∧ b = d := by
  induction a with
  | nil =>
    intro c b d _ hc h
    cases c with
    | nil =>
      simp only [List.nil_append] at h
      injection h with _ h2
      exact ⟨rfl, h2⟩
    | cons y ys =>
      simp only [List.nil_append, List.cons_append] at h
      injection h with h1 _
      subst h1
      exact absurd (List.mem_cons_self _ _) hc
  | cons x xs ih =>
    intro c b d ha hc h
    cases c with
    | nil =>
      simp only [List.cons_append, List.nil_append] at h
      injection h with h1 _
      subst h1
      exact absurd (List.mem_cons_self _ _) ha
    | cons y ys =>
      simp only [List.cons_append] at h
      injection h with h1 h2
      subst h1
      have ha' : '-' ∉ xs := fun hm => ha (List.mem_cons_of_mem _ hm)
      have hc' : '-' ∉ ys := fun hm => hc (List.mem_cons_of_mem _ hm)
      obtain ⟨h3, h4⟩ := ih ys b d ha' hc' h2
      exact ⟨by rw [h3], h4⟩

theorem append_dash_right_inj (a b c d : List Char) (hb : '-' ∉ b) (hd : '-' ∉ d)
    (h : a ++ '-' :: b = c ++ '-' :: d) : a = c ∧ b = d := by
  have hrev := congrArg List.reverse h
  simp only [List.reverse_append, List.reverse_cons, List.append_assoc,
    List.singleton_append] at hrev
  obtain ⟨h1, h2⟩ := append_dash_left_inj b.reverse d.reverse a.reverse c.reverse
    (by simpa using hb) (by simpa using hd) hrev
  exact ⟨List.reverse_injective h2, List.reverse_injective h1⟩

theorem mkDetectedId_index_inj (t u i j : Nat)
    (h : mkDetectedId t i = mkDetectedId u j) : i = j := by
  unfold mkDetectedId at h
  have hi : '-' ∉ natChars i := fun hm => natChars_ne_dash i '-' hm rfl
  have hj : '-' ∉ natChars j := fun hm => natChars_ne_dash j '-' hm rfl
  obtain ⟨-, h2⟩ := append_dash_right_inj _ _ _ _ hi hj h
  exact natChars_injective h2

/-- **C5.** Id uniqueness within a run: within one call of
`processDetectionResults` the generated ids are pairwise distinct, for every
input list and every behaviour of the `Date.now()` clock across the
iterations. -/
theorem detected_ids_pairwise_distinct (resp : DetectionResponse) (clock : Nat → Nat)
    (i j : Nat) (hi : i < resp.detected_items.length)
    (hj : j < resp.detected_items.length) (hij : i ≠ j) :
    ((processDetectionResults resp clock).get
        ⟨i, by rw [length_processDetectionResults]; exact hi⟩).id ≠
      ((processDetectionResults resp clock).get
        ⟨j, by rw [length_processDetectionResults]; exact hj⟩).id := by
  rw [get_processDetectionResults resp clock i hi,
    get_processDetectionResults resp clock j hj]
  intro h
  exact hij (mkDetectedId_index_inj _ _ _ _ h)

/-- **C5, witness.**  Two items, a clock that even collides across the two
iterations: the ids still differ. -/
theorem detected_ids_pairwise_distinct_witness :
    ((processDetectionResults ⟨[⟨"apple", "fruit", 1, none⟩, ⟨"milk", "packaged", 1, none⟩]⟩
        (fun _ => 42)).get
        ⟨0, by rw [length_processDetectionResults]; decide⟩).id ≠
      ((processDetectionResults ⟨[⟨"apple", "fruit", 1, none⟩, ⟨"milk", "packaged", 1, none⟩]⟩
        (fun _ => 42)).get
        ⟨1, by rw [length_processDetectionResults]; decide⟩).id :=
  detected_ids_pairwise_distinct
    ⟨[⟨"apple", "fruit", 1, none⟩, ⟨"milk", "packaged", 1, none⟩]⟩
    (fun _ => 42) 0 1 (by decide) (by decide) (by decide)

/-- **C6.** Non-negative expiry horizon: every payload `handleAddToFridge`
hands to persistence carries the item's name (a present string — the model
types `name` as a string, never null) and an expiry date exactly 7 days
after the add date, hence no earlier than the add date nor than the (no
later) detection date: the horizon is never negative. -/
theorem addToFridge_payload_invariants (item : InventoryRecord) (today : Nat)
    (hdet : item.detectedAt ≤ today) :
    (handleAddToFridge item today).name = item.name ∧
    (handleAddToFridge item today).expiryDate = today + 7 ∧
    today ≤ (handleAddToFridge item today).expiryDate ∧
    item.detectedAt ≤ (handleAddToFridge item today).expiryDate := by
  refine ⟨rfl, rfl, ?_, ?_⟩
  · show today ≤ today + 7
    omega
  · show item.detectedAt ≤ today + 7
    omega

/-- **C6, witness.** -/
theorem addToFridge_payload_invariants_witness :
    (handleAddToFridge ⟨['x'], "apple", "fruits", 1, none, 5⟩ 10).name = "apple" ∧
    (handleAddToFridge ⟨['x'], "apple", "fruits", 1, none, 5⟩ 10).expiryDate = 10 + 7 ∧
    10 ≤ (handleAddToFridge ⟨['x'], "apple", "fruits", 1, none, 5⟩ 10).expiryDate ∧
    (⟨['x'], "apple", "fruits", 1, none, 5⟩ : InventoryRecord).detectedAt ≤
      (handleAddToFridge ⟨['x'], "apple", "fruits", 1, none, 5⟩ 10).expiryDate :=
  addToFridge_payload_invariants ⟨['x'], "apple", "fruits", 1, none, 5⟩ 10 (by decide)

/-- **C9.** Amount-left clamp: `handleUpdateAmount` only ever dispatches an
`updateAmountLeft` action whose amount lies in the half-open interval
(0, 1] — the sum is clamped to [0, 1] and a clamped value of exactly 0
takes the removal branch instead. -/
theorem updateAmount_dispatch_clamped (items : List HomeItem) (id idq : String)
    (change a : ℚ) (h : handleUpdateAmount items id change = .update idq a) :
    0 < a ∧ a ≤ 1 := by
  unfold handleUpdateAmount at h
  cases hf : items.find? (fun i => i.id == id) with
  | none => rw [hf] at h; simp at h
  | some item =>
    rw [hf] at h
    dsimp only at h
    by_cases h0 : max 0 (min 1 (item.amountLeft + change)) = 0
    · rw [if_pos h0] at h; simp at h
    · rw [if_neg h0] at h
      injection h with h1 h2
      subst h2
      exact ⟨lt_of_le_of_ne (le_max_left 0 _) (Ne.symm h0),
        max_le zero_le_one (min_le_left 1 _)⟩

/-- **C9, witness.** -/
theorem updateAmount_dispatch_clamped_witness : (0 : ℚ) < 1 ∧ (1 : ℚ) ≤ 1 :=
  updateAmount_dispatch_clamped [⟨"x", 1⟩] "x" "x" 0 1
    (by norm_num [handleUpdateAmount, List.find?])

/-- The status-based fallback error message is never the empty string. -/
theorem statusMessage_ne_empty (status : Nat) : statusMessage status ≠ "" := by
  intro h
  have hd := congrArg String.data h
  rw [statusMessage, String.data_append] at hd
  simp at hd

/-- **C7.** Detection request error contract: `detectFoodItems` returns the
parsed response exactly on an ok HTTP response; a timeout fails with the
dedicated timeout message, and a non-ok response fails with the server's
`detail` (when it is a non-empty string) or the status-based message; every
failure message is non-empty, and no failed request returns a value. -/
theorem detectFoodItems_error_contract :
    (∀ (status : Nat) (detail : Option String) (data : DetectionResponse),
      detectFoodItems (.completed true status detail data) = .ok data) ∧
    (detectFoodItems .timeout = .error timeoutMessage ∧ timeoutMessage ≠ "") ∧
    (∀ (status : Nat) (detail : Option String) (data : DetectionResponse),
      ∃ msg : String,
        detectFoodItems (.completed false status detail data) = .error msg ∧
        msg ≠ "" ∧
        ((∃ d, detail = some d ∧ d ≠ "" ∧ msg = d) ∨ msg = statusMessage status)) := by
  refine ⟨fun status detail data => by simp [detectFoodItems], ⟨rfl, by decide⟩,
    fun status detail data => ?_⟩
  cases detail with
  | none =>
    exact ⟨statusMessage status, by simp [detectFoodItems, jsOrString],
      statusMessage_ne_empty status, Or.inr rfl⟩
  | some d =>
    by_cases hd : d = ""
    · subst hd
      exact ⟨statusMessage status, rfl, statusMessage_ne_empty status, Or.inr rfl⟩
    · refine ⟨d, ?_, hd, Or.inl ⟨d, rfl, hd, rfl⟩⟩
      have hne : d.isEmpty = false := by
        rw [Bool.eq_false_iff]
        intro he
        exact hd ((String.isEmpty_iff d).mp he)
      simp [detectFoodItems, jsOrString, hne]

/-! ## Round-trip of the storage path (C10)

`url.indexOf('fridge-photos/')` finds the FIRST occurrence of the marker.
When the URL is `pre ++ marker ++ path` and `pre` does not contain the
marker, the first occurrence sits exactly at `pre.length`: an occurrence
straddling the boundary would force the marker to overlap itself, and
`"fridge-photos/"` has no self-overlap (no proper border), which is a
finite check. -/

theorem bucketMarker_ne_nil : bucketMarker ≠ [] := by decide

theorem bucketMarker_length : bucketMarker.length = 14 := by decide

/-- `"fridge-photos/"` has no proper border: no nonempty proper suffix of it
is also one of its prefixes. -/
theorem bucketMarker_no_border :
    ∀ n : Fin 14, 1 ≤ n.val →
      bucketMarker.drop n.val ≠ bucketMarker.take (14 - n.val) := by
  decide

theorem indexOfSubstr_marker_self (u : List Char) (h : bucketMarker <+: u) :
    indexOfSubstr bucketMarker u = some 0 := by
  cases u with
  | nil =>
    obtain ⟨t, ht⟩ := h
    rw [List.append_eq_nil] at ht
    exact absurd ht.1 bucketMarker_ne_nil
  | cons c rest => rw [indexOfSubstr, if_pos h]

theorem bucketMarker_not_prefix_straddle (s path : List Char) (hs : s ≠ [])
    (hnin : ¬ bucketMarker <:+: s) :
    ¬ bucketMarker <+: (s ++ (bucketMarker ++ path)) := by
  intro h
  obtain ⟨t, ht⟩ := h
  by_cases hcase : 14 ≤ s.length
  · have htake := congrArg (List.take bucketMarker.length) ht
    rw [List.take_left bucketMarker t,
      List.take_append_of_le_length (by rw [bucketMarker_length]; exact hcase)] at htake
    have hkey : s.take bucketMarker.length ++ s.drop bucketMarker.length = s :=
      List.take_append_drop _ s
    rw [← htake] at hkey
    exact hnin ⟨[], s.drop bucketMarker.length, by rw [List.nil_append]; exact hkey⟩
  · have hn1 : 1 ≤ s.length := List.length_pos.mpr hs
    have hn13 : s.length < 14 := by omega
    have hdrop := congrArg (List.drop s.length) ht
    rw [List.drop_append_of_le_length (by rw [bucketMarker_length]; omega),
      List.drop_left s (bucketMarker ++ path)] at hdrop
    have hfront := congrArg (List.take (14 - s.length)) hdrop
    rw [List.take_left' (by rw [List.length_drop, bucketMarker_length]),
      List.take_append_of_le_length (by rw [bucketMarker_length]; omega)] at hfront
    exact bucketMarker_no_border ⟨s.length, hn13⟩ hn1 hfront

theorem indexOfSubstr_append_marker (pre path : List Char)
    (h : ¬ bucketMarker <:+: pre) :
    indexOfSubstr bucketMarker (pre ++ bucketMarker ++ path) = some pre.length := by
  induction pre with
  | nil =>
    rw [List.nil_append]
    exact indexOfSubstr_marker_self _ ⟨path, rfl⟩
  | cons c cs ih =>
    have hshape : (c :: cs) ++ bucketMarker ++ path =
        c :: (cs ++ (bucketMarker ++ path)) := by simp
    rw [hshape, indexOfSubstr]
    have hnp : ¬ bucketMarker <+: c :: (cs ++ (bucketMarker ++ path)) := by
      have := bucketMarker_not_prefix_straddle (c :: cs) path (by simp) h
      simpa using this
    rw [if_neg hnp]
    have hcs : ¬ bucketMarker <:+: cs := by
      rintro ⟨s, t, hst⟩
      exact h ⟨c :: s, t, by rw [← hst]; simp⟩
    have := ih hcs
    rw [show cs ++ (bucketMarker ++ path) = cs ++ bucketMarker ++ path from
      (List.append_assoc cs bucketMarker path).symm, this]
    rfl

theorem indexOfSubstr_eq_none_of_no_occurrence (u : List Char)
    (h : ¬ bucketMarker <:+: u) : indexOfSubstr bucketMarker u = none := by
  induction u with
  | nil => rw [indexOfSubstr, if_neg bucketMarker_ne_nil]
  | cons c cs ih =>
    rw [indexOfSubstr]
    have hnp : ¬ bucketMarker <+: c :: cs := by
      rintro ⟨t, ht⟩
      exact h ⟨[], t, by rw [List.nil_append, ht]⟩
    rw [if_neg hnp]
    have hcs : ¬ bucketMarker <:+: cs := by
      rintro ⟨s, t, hst⟩
      exact h ⟨c :: s, t, by rw [← hst]; simp⟩
    rw [ih hcs]
    rfl

/-- **C10.** Storage path round-trip: for every URL of the form
`pre ++ "fridge-photos/" ++ path` where `pre` does not contain the marker
substring, `getPathFromUrl` returns exactly `path` (a left inverse of the
public-URL construction of `uploadItemImage`); for a null/undefined input
or any URL not containing the marker, it returns null. -/
theorem getPathFromUrl_spec :
    (∀ pre path : List Char, ¬ bucketMarker <:+: pre →
      getPathFromUrl (some (pre ++ bucketMarker ++ path)) = some path) ∧
    getPathFromUrl none = none ∧
    (∀ u : List Char, ¬ bucketMarker <:+: u → getPathFromUrl (some u) = none) := by
  refine ⟨fun pre path hpre => ?_, rfl, fun u hu => ?_⟩
  · have hne : (pre ++ bucketMarker ++ path) ≠ [] := by
      simp [bucketMarker_ne_nil]
    rw [getPathFromUrl, if_neg (by simpa [List.isEmpty_iff] using hne),
      indexOfSubstr_append_marker pre path hpre]
    show some ((pre ++ bucketMarker ++ path).drop (pre.length + bucketMarker.length)) =
      some path
    rw [show pre.length + bucketMarker.length = (pre ++ bucketMarker).length by
      rw [List.length_append]]
    rw [List.drop_left (pre ++ bucketMarker) path]
  · by_cases hnil : u = []
    · subst hnil
      rfl
    · rw [getPathFromUrl, if_neg (by simpa [List.isEmpty_iff] using hnil),
        indexOfSubstr_eq_none_of_no_occurrence u hu]

/-- **C10, witness.** -/
theorem getPathFromUrl_spec_witness :
    getPathFromUrl (some ("http://h/public/".toList ++ bucketMarker ++
        "user1/2.jpg".toList)) = some "user1/2.jpg".toList ∧
    getPathFromUrl (some "http://h/other.png".toList) = none :=
  ⟨getPathFromUrl_spec.1 "http://h/public/".toList "user1/2.jpg".toList (by decide),
   getPathFromUrl_spec.2.2 "http://h/other.png".toList (by decide)⟩

end FridgePal
